import Mathlib

/-!
# Verification of the feather block-state registry

Shallow embedding of `libcraft/blocks/src/registry.rs`: the `BlockRegistry`
singleton data structure, its derived indices, and the `BlockState` handle
operations.  Hash maps built by `collect` from an iterator are modelled as
association lists with last-binding-wins lookup, which matches repeated
`insert` into a hash map.  A Rust `panic!`/`expect`/indexing failure is
modelled as `none` of an `Option`-valued function.
-/

namespace Feather

/-- Lookup in an association list where a later binding for the same key
overrides an earlier one, mirroring `AHashMap::from_iter` followed by `get`. -/
def mapGet {κ β : Type} [DecidableEq κ] : List (κ × β) → κ → Option β
  | [], _ => none
  | (k', v) :: rest, k =>
    match mapGet rest k with
    | some w => some w
    | none => if k = k' then some v else none

theorem mapGet_eq_none_of_not_mem {κ β : Type} [DecidableEq κ]
    {l : List (κ × β)} {k : κ} (h : k ∉ l.map Prod.fst) : mapGet l k = none := by
  induction l with
  | nil => rfl
  | cons p rest ih =>
    obtain ⟨k', v⟩ := p
    simp only [List.map_cons, List.mem_cons, not_or] at h
    simp only [mapGet, ih h.2, if_neg h.1]

theorem mem_of_mapGet_eq_some {κ β : Type} [DecidableEq κ]
    {l : List (κ × β)} {k : κ} {v : β} (h : mapGet l k = some v) : (k, v) ∈ l := by
  induction l with
  | nil => simp [mapGet] at h
  | cons p rest ih =>
    obtain ⟨k', v'⟩ := p
    simp only [mapGet] at h
    cases hrest : mapGet rest k with
    | some w =>
      rw [hrest] at h
      cases h
      exact List.mem_cons_of_mem _ (ih hrest)
    | none =>
      rw [hrest] at h
      by_cases hk : k = k'
      · rw [if_pos hk] at h
        cases h
        subst hk
        exact List.mem_cons_self _ _
      · rw [if_neg hk] at h
        cases h

theorem mapGet_eq_some_of_mem {κ β : Type} [DecidableEq κ]
    {l : List (κ × β)} (hnd : (l.map Prod.fst).Nodup) {k : κ} {v : β}
    (h : (k, v) ∈ l) : mapGet l k = some v := by
  induction l with
  | nil => cases h
  | cons p rest ih =>
    obtain ⟨k', v'⟩ := p
    simp only [List.map_cons, List.nodup_cons] at hnd
    rcases List.mem_cons.1 h with heq | hmem
    · cases heq
      have hrest : mapGet rest k = none :=
        mapGet_eq_none_of_not_mem hnd.1
      simp [mapGet, hrest]
    · have hrest := ih hnd.2 hmem
      simp only [mapGet, hrest]

theorem mapGet_isSome_iff {κ β : Type} [DecidableEq κ]
    (l : List (κ × β)) (k : κ) : (mapGet l k).isSome ↔ k ∈ l.map Prod.fst := by
  induction l with
  | nil => simp [mapGet]
  | cons p rest ih =>
    obtain ⟨k', v'⟩ := p
    simp only [mapGet, List.map_cons, List.mem_cons]
    cases hrest : mapGet rest k with
    | some w =>
      simp only [Option.isSome_some, true_iff]
      right
      rw [hrest] at ih
      exact ih.1 rfl
    | none =>
      rw [hrest] at ih
      by_cases hk : k = k'
      · simp [if_pos hk, hk]
      · simp only [if_neg hk, ih]
        simp [hk]

/-- If the bindings of `l` whose key is `k` are exactly `[(k, v)]`, the lookup
returns `v`. -/
theorem mapGet_eq_some_of_filter_eq {κ β : Type} [DecidableEq κ]
    {l : List (κ × β)} {k : κ} {v : β}
    (h : l.filter (fun p => decide (p.1 = k)) = [(k, v)]) : mapGet l k = some v := by
  induction l with
  | nil => simp at h
  | cons p rest ih =>
    obtain ⟨k', v'⟩ := p
    by_cases hk : k' = k
    · subst hk
      rw [List.filter_cons_of_pos (by simp)] at h
      obtain ⟨hpair, hrest⟩ := List.cons.inj h
      cases hpair
      have hnone : mapGet rest k' = none := by
        apply mapGet_eq_none_of_not_mem
        intro hmem
        obtain ⟨q, hq, hqk⟩ := List.mem_map.1 hmem
        have : q ∈ rest.filter (fun p => decide (p.1 = k')) :=
          List.mem_filter.2 ⟨hq, by simp [hqk]⟩
        rw [hrest] at this
        cases this
      simp [mapGet, hnone]
    · rw [List.filter_cons_of_neg (by simp [hk])] at h
      have := ih h
      simp only [mapGet, this]

/-- Modelled from the spec: `BlockKind` (defined in generated code outside the
surveyed file) is an enumerated value carrying a stable namespaced string
identifier.  We model a kind by that identifier. -/
structure BlockKind where
  namespacedId : String
deriving DecidableEq

/-- Modelled from the spec: the canonical key for a state — the owning kind
plus a normalized encoding of every property value; equality is structural.
The typed encoding (many optional fields in `crate::data`) is modelled as a
finite list of property name/value assignments. -/
structure RawBlockStateProperties where
  kind : BlockKind
  values : List (String × String)
deriving DecidableEq

/-- Modelled from the spec: per-kind domain description — which property names
exist for a kind and what string values each may take. -/
structure ValidProperties where
  domains : List (String × List String)
deriving DecidableEq

abbrev SmartStr := String
abbrev PropertyValues := List (SmartStr × SmartStr)

/-- One row of the state table (`RawBlockState` in `crate::data`), as used by
`registry.rs`: id, kind, typed properties, untyped string pairs, default flag. -/
structure RawBlockState where
  id : Nat
  kind : BlockKind
  properties : RawBlockStateProperties
  untyped_properties : PropertyValues
  default : Bool
deriving DecidableEq

/-- One row of the property-domain table (`RawBlockProperties` in
`crate::data`): kind and its valid property domains. -/
structure RawBlockProperties where
  kind : BlockKind
  valid_properties : ValidProperties
deriving DecidableEq

/-- The public handle: a single numeric id (`u16` in the source). -/
structure BlockState where
  id : Nat
deriving DecidableEq

/-- `#[derive(Default)]` on `BlockState` zero-initializes the `u16`, giving the
handle with id 0 (also the all-zero byte pattern allowed by `Zeroable`/`Pod`). -/
def BlockState.defaultHandle : BlockState := ⟨0⟩

/-- The process-wide registry: the state table plus the four derived indices.
Hash maps are modelled as association lists queried with `mapGet`. -/
structure BlockRegistry where
  states : List RawBlockState
  id_mapping : List (RawBlockStateProperties × Nat)
  valid_properties : List (BlockKind × ValidProperties)
  default_states : List (BlockKind × BlockState)
  by_untyped_repr : List ((SmartStr × PropertyValues) × Nat)

namespace BlockRegistry

/-- `BlockRegistry::new`, after the two bundles have been decompressed and
deserialized into `states` and `properties`: build the four derived indices by
mapping over the rows exactly as the source does.  The debug-build id/index
assertion is modelled separately by `checkIds` / `newDebug`. -/
def new (states : List RawBlockState) (properties : List RawBlockProperties) :
    BlockRegistry where
  states := states
  id_mapping := states.map fun s => (s.properties, s.id)
  valid_properties := properties.map fun p => (p.kind, p.valid_properties)
  default_states := (states.filter fun s => s.default).map fun s =>
    (s.kind, BlockState.mk s.id)
  by_untyped_repr := states.map fun s =>
    ((s.kind.namespacedId, s.untyped_properties), s.id)

/-- The debug-build consistency loop in `BlockRegistry::new`:
`for (index, state) in states.iter().enumerate() { assert_eq!(index, state.id) }`,
as a boolean check carrying the running index. -/
def checkIdsFrom : Nat → List RawBlockState → Bool
  | _, [] => true
  | i, s :: rest => s.id == i && checkIdsFrom (i + 1) rest

def checkIds (states : List RawBlockState) : Bool :=
  checkIdsFrom 0 states

/-- `BlockRegistry::new` as compiled in a debug build: the id/index assertion
runs, and an assertion failure (a panic, modelled as `none`) rejects the
bundle instead of producing a registry. -/
def newDebug (states : List RawBlockState) (properties : List RawBlockProperties) :
    Option BlockRegistry :=
  if checkIds states then some (new states properties) else none

/-- `BlockRegistry::raw_state`: `self.states.get(id as usize)`. -/
def raw_state (reg : BlockRegistry) (id : Nat) : Option RawBlockState :=
  reg.states[id]?

/-- `BlockRegistry::id_for_state`: exact-match lookup in `id_mapping`. -/
def id_for_state (reg : BlockRegistry) (state : RawBlockStateProperties) :
    Option Nat :=
  mapGet reg.id_mapping state

/-- `BlockRegistry::default_state`: `self.default_states[&kind]`.  The Rust
indexing panics when the kind is absent; the panic is modelled as `none`. -/
def default_state (reg : BlockRegistry) (kind : BlockKind) : Option BlockState :=
  mapGet reg.default_states kind

/-- `BlockRegistry::id_for_untyped_repr`: build the `(namespaced id, collected
property pair list)` key and look it up exactly in `by_untyped_repr`. -/
def id_for_untyped_repr (reg : BlockRegistry) (namespaced_id : SmartStr)
    (property_values : PropertyValues) : Option Nat :=
  mapGet reg.by_untyped_repr (namespaced_id, property_values)

end BlockRegistry

/-- Modelled from the spec: an implementation of the `BlockData` trait for a
typed property view `D` — "decode from raw properties, given this kind's
valid-property domain" and "encode overrides into raw properties".  The
`apply_from_raw` law states that encoding back a just-decoded, unchanged value
reproduces the same raw properties (the Property Codec round-trip the spec
requires of every typed view). -/
structure BlockDataImpl (D : Type) where
  from_raw : RawBlockStateProperties → ValidProperties → Option D
  apply : D → RawBlockStateProperties → RawBlockStateProperties
  apply_from_raw : ∀ p vp d, from_raw p vp = some d → apply d p = p

namespace BlockState

/-- `BlockState::new`: the default state for the kind; a missing default is a
panic, modelled as `none`. -/
def new (reg : BlockRegistry) (kind : BlockKind) : Option BlockState :=
  reg.default_state kind

/-- `BlockState::raw`: `REGISTRY.raw_state(self.id).expect("bad block")`; the
`expect` panic on an invalid id is modelled as `none`. -/
def raw (reg : BlockRegistry) (s : BlockState) : Option RawBlockState :=
  reg.raw_state s.id

/-- `BlockState::kind`: `self.raw().kind`. -/
def kind (reg : BlockRegistry) (s : BlockState) : Option BlockKind :=
  (s.raw reg).map RawBlockState.kind

/-- `BlockState::is_default`: `self.raw().default`. -/
def is_default (reg : BlockRegistry) (s : BlockState) : Option Bool :=
  (s.raw reg).map RawBlockState.default

/-- `BlockState::id`. -/
def idOf (s : BlockState) : Nat := s.id

/-- `BlockState::from_id`: `Some` exactly when the id indexes a row. -/
def from_id (reg : BlockRegistry) (id : Nat) : Option BlockState :=
  (reg.raw_state id).map fun _ => BlockState.mk id

/-- `BlockState::is_valid`: `REGISTRY.raw_state(self.id).is_some()`. -/
def is_valid (reg : BlockRegistry) (s : BlockState) : Bool :=
  (reg.raw_state s.id).isSome

/-- `BlockState::namespaced_id`: `self.kind().namespaced_id()`. -/
def namespaced_id (reg : BlockRegistry) (s : BlockState) : Option String :=
  (s.kind reg).map BlockKind.namespacedId

/-- `BlockState::property_values`: the stored untyped `(key, value)` pairs, in
their stored order. -/
def property_values (reg : BlockRegistry) (s : BlockState) :
    Option PropertyValues :=
  (s.raw reg).map RawBlockState.untyped_properties

/-- `BlockState::from_namespaced_id_and_property_values`. -/
def from_namespaced_id_and_property_values (reg : BlockRegistry)
    (namespaced_id : String) (property_values : PropertyValues) :
    Option BlockState :=
  (reg.id_for_untyped_repr namespaced_id property_values).map BlockState.mk

/-- `BlockState::get_valid_properties`:
`REGISTRY.valid_properties.get(&self.raw().kind).unwrap()`; both the `expect`
inside `raw` and the `unwrap` are modelled as `none`. -/
def get_valid_properties (reg : BlockRegistry) (s : BlockState) :
    Option ValidProperties :=
  (s.raw reg).bind fun r => mapGet reg.valid_properties r.kind

/-- `BlockState::from_raw`: look the raw properties up, `None` when absent. -/
def from_raw (reg : BlockRegistry) (raw : RawBlockStateProperties) :
    Option BlockState :=
  (reg.id_for_state raw).map BlockState.mk

/-- `BlockState::data_as`:
`T::from_raw(&self.raw().properties, self.get_valid_properties())`. -/
def data_as {D : Type} (reg : BlockRegistry) (impl : BlockDataImpl D)
    (s : BlockState) : Option D :=
  (s.raw reg).bind fun r =>
    (s.get_valid_properties reg).bind fun vp =>
      impl.from_raw r.properties vp

/-- `BlockState::set_data`: clone the current raw properties, apply the data's
overrides, and swap in the looked-up id when the result names a known state;
otherwise leave the handle unchanged.  The initial `self.raw()` panics on an
invalid handle (modelled as `none`). -/
def set_data {D : Type} (reg : BlockRegistry) (impl : BlockDataImpl D) (d : D)
    (s : BlockState) : Option BlockState :=
  (s.raw reg).map fun r =>
    match BlockState.from_raw reg (impl.apply d r.properties) with
    | some nb => nb
    | none => s

end BlockState

/-! ## Helper lemmas about the registry -/

theorem checkIdsFrom_iff (l : List RawBlockState) (n : Nat) :
    BlockRegistry.checkIdsFrom n l = true ↔
      ∀ i (h : i < l.length), l[i].id = n + i := by
  induction l generalizing n with
  | nil => simp [BlockRegistry.checkIdsFrom]
  | cons s rest ih =>
    simp only [BlockRegistry.checkIdsFrom, Bool.and_eq_true, beq_iff_eq, ih]
    constructor
    · rintro ⟨h0, hrest⟩ i hi
      cases i with
      | zero => simpa using h0
      | succ j =>
        have hj : j < rest.length := Nat.lt_of_succ_lt_succ hi
        have h2 := hrest j hj
        simp only [List.getElem_cons_succ]
        omega
    · intro h
      refine ⟨by simpa using h 0 (Nat.succ_pos _), fun j hj => ?_⟩
      have h2 := h (j + 1) (Nat.succ_lt_succ hj)
      simp only [List.getElem_cons_succ] at h2
      omega

theorem checkIds_iff (l : List RawBlockState) :
    BlockRegistry.checkIds l = true ↔ ∀ i (h : i < l.length), l[i].id = i := by
  simpa using checkIdsFrom_iff l 0

theorem raw_state_new (states : List RawBlockState)
    (props : List RawBlockProperties) (i : Nat) (h : i < states.length) :
    (BlockRegistry.new states props).raw_state i = some states[i] := by
  simp [BlockRegistry.raw_state, BlockRegistry.new, List.getElem?_eq_getElem h]

theorem raw_state_new_none (states : List RawBlockState)
    (props : List RawBlockProperties) (i : Nat) (h : states.length ≤ i) :
    (BlockRegistry.new states props).raw_state i = none := by
  simp [BlockRegistry.raw_state, BlockRegistry.new, List.getElem?_eq_none h]

/-! ## Concrete test data

A miniature three-row state table used to instantiate the hypotheses of the
theorems below: a stone state with no properties and two chest states with
`type` and `facing` properties, the single one being the chest default. -/

def kindStone : BlockKind := ⟨"minecraft:stone"⟩

def kindChest : BlockKind := ⟨"minecraft:chest"⟩

def testStates : List RawBlockState :=
  [ ⟨0, kindStone, ⟨kindStone, []⟩, [], true⟩,
    ⟨1, kindChest, ⟨kindChest, [("type", "single"), ("facing", "north")]⟩,
      [("type", "single"), ("facing", "north")], true⟩,
    ⟨2, kindChest, ⟨kindChest, [("type", "left"), ("facing", "north")]⟩,
      [("type", "left"), ("facing", "north")], false⟩ ]

def testProps : List RawBlockProperties :=
  [ ⟨kindStone, ⟨[]⟩⟩,
    ⟨kindChest, ⟨[("type", ["single", "left", "right"]),
                  ("facing", ["north", "south", "east", "west"])]⟩⟩ ]

/-- A degenerate typed view whose decoded value is the whole raw property set;
its `apply` writes the stored value back verbatim, so the codec law holds. -/
def wholeStateView : BlockDataImpl RawBlockStateProperties where
  from_raw := fun p _ => some p
  apply := fun d _ => d
  apply_from_raw := by
    intro p vp d h
    cases h
    rfl

/-! ## Claim theorems -/

/-- C2: for every id `i`, `BlockState::from_id(i)` returns some state whose
`id()` equals `i` and which is valid exactly when `i < state_count`; for every
`i` at or above `state_count` it returns `None`. -/
theorem from_id_some_iff_in_range (states : List RawBlockState)
    (props : List RawBlockProperties) (i : Nat) :
    (i < states.length →
      ∃ s, BlockState.from_id (BlockRegistry.new states props) i = some s ∧
        s.idOf = i ∧ BlockState.is_valid (BlockRegistry.new states props) s = true) ∧
    (states.length ≤ i →
      BlockState.from_id (BlockRegistry.new states props) i = none) := by
  constructor
  · intro h
    refine ⟨⟨i⟩, ?_, rfl, ?_⟩
    · simp [BlockState.from_id, raw_state_new states props i h]
    · simp [BlockState.is_valid, raw_state_new states props i h]
  · intro h
    simp [BlockState.from_id, raw_state_new_none states props i h]

theorem from_id_some_iff_in_range_witness :
    (∃ s, BlockState.from_id (BlockRegistry.new testStates testProps) 1 = some s ∧
      s.idOf = 1 ∧
      BlockState.is_valid (BlockRegistry.new testStates testProps) s = true) ∧
    BlockState.from_id (BlockRegistry.new testStates testProps) 5 = none :=
  ⟨(from_id_some_iff_in_range testStates testProps 1).1 (by decide),
   (from_id_some_iff_in_range testStates testProps 5).2 (by decide)⟩

/-- C7: `is_valid` is true exactly when the id is within `[0, states.len())`,
and every accessor that assumes validity (`kind`, `property_values`,
`is_default`, `namespaced_id`, `get_valid_properties`, `data_as`, `raw`) is a
fatal assertion (modelled as `none`) on an out-of-range id, never a silent
coercion to another state. -/
theorem invalid_accessors_panic_and_is_valid_range (states : List RawBlockState)
    (props : List RawBlockProperties) (s : BlockState) :
    (BlockState.is_valid (BlockRegistry.new states props) s = true ↔
      s.id < states.length) ∧
    (states.length ≤ s.id →
      BlockState.kind (BlockRegistry.new states props) s = none ∧
      BlockState.property_values (BlockRegistry.new states props) s = none ∧
      BlockState.is_default (BlockRegistry.new states props) s = none ∧
      BlockState.namespaced_id (BlockRegistry.new states props) s = none ∧
      BlockState.get_valid_properties (BlockRegistry.new states props) s = none ∧
      (∀ (D : Type) (impl : BlockDataImpl D),
        BlockState.data_as (BlockRegistry.new states props) impl s = none) ∧
      BlockState.raw (BlockRegistry.new states props) s = none) := by
  constructor
  · constructor
    · intro h
      by_contra hlt
      have := raw_state_new_none states props s.id (Nat.le_of_not_lt hlt)
      simp [BlockState.is_valid, this] at h
    · intro h
      simp [BlockState.is_valid, raw_state_new states props s.id h]
  · intro h
    have hr := raw_state_new_none states props s.id h
    refine ⟨?_, ?_, ?_, ?_, ?_, ?_, ?_⟩ <;>
      simp [BlockState.kind, BlockState.property_values, BlockState.is_default,
        BlockState.namespaced_id, BlockState.get_valid_properties,
        BlockState.data_as, BlockState.raw, hr]

theorem invalid_accessors_panic_and_is_valid_range_witness :
    BlockState.is_valid (BlockRegistry.new testStates testProps) ⟨2⟩ = true ∧
    BlockState.kind (BlockRegistry.new testStates testProps) ⟨7⟩ = none :=
  ⟨(invalid_accessors_panic_and_is_valid_range testStates testProps ⟨2⟩).1.2
      (by decide),
   ((invalid_accessors_panic_and_is_valid_range testStates testProps ⟨7⟩).2
      (by decide)).1⟩

/-- C8: debug-build construction succeeds exactly when every row's stored id
equals its index, and any registry it produces satisfies
`states[i].id == i` for all `i`; a bundle violating the invariant is rejected
(the assertion fails, no registry is produced). -/
theorem newDebug_checks_ids (states : List RawBlockState)
    (props : List RawBlockProperties) :
    ((BlockRegistry.newDebug states props).isSome ↔
      ∀ i (h : i < states.length), states[i].id = i) ∧
    (∀ reg, BlockRegistry.newDebug states props = some reg →
      reg = BlockRegistry.new states props ∧
      ∀ i (h : i < reg.states.length), reg.states[i].id = i) := by
  constructor
  · rw [← checkIds_iff]
    unfold BlockRegistry.newDebug
    by_cases h : BlockRegistry.checkIds states = true
    · simp [h]
    · simp [h]
  · intro reg hreg
    unfold BlockRegistry.newDebug at hreg
    by_cases h : BlockRegistry.checkIds states = true
    · rw [if_pos h] at hreg
      cases hreg
      exact ⟨rfl, fun i hi => (checkIds_iff states).1 h i hi⟩
    · rw [if_neg h] at hreg
      cases hreg

theorem newDebug_checks_ids_witness :
    (BlockRegistry.newDebug testStates testProps).isSome :=
  (newDebug_checks_ids testStates testProps).1.2 (by decide)

/-- C10: the derived `Default` (and the all-zero `Zeroable`/`Pod` pattern)
gives a handle with id 0; whenever the state table is non-empty this handle is
valid and equal to `from_id(0)`. -/
theorem default_handle_zero_valid (states : List RawBlockState)
    (props : List RawBlockProperties) (h : states ≠ []) :
    BlockState.defaultHandle.id = 0 ∧
    BlockState.is_valid (BlockRegistry.new states props)
      BlockState.defaultHandle = true ∧
    BlockState.from_id (BlockRegistry.new states props) 0 =
      some BlockState.defaultHandle := by
  have hlen : 0 < states.length := List.length_pos.2 h
  have hr := raw_state_new states props 0 hlen
  exact ⟨rfl, by simp [BlockState.is_valid, BlockState.defaultHandle, hr],
    by simp [BlockState.from_id, hr, BlockState.defaultHandle]⟩

theorem default_handle_zero_valid_witness :
    BlockState.is_valid (BlockRegistry.new testStates testProps)
      BlockState.defaultHandle = true :=
  (default_handle_zero_valid testStates testProps (by decide)).2.1

/-- C5: `from_namespaced_id_and_property_values` is an exact, order-sensitive
match: it returns `Some` exactly when the pair sequence equals, element for
element and in stored order, some row's untyped property list under that
kind's namespaced id (so any other input, including a permutation matching no
stored list, yields `None`), and any state it returns is such a row. -/
theorem from_namespaced_id_exact_match (states : List RawBlockState)
    (props : List RawBlockProperties) (nsid : String) (pv : PropertyValues) :
    ((BlockState.from_namespaced_id_and_property_values
        (BlockRegistry.new states props) nsid pv).isSome ↔
      ∃ r ∈ states, r.kind.namespacedId = nsid ∧ r.untyped_properties = pv) ∧
    (∀ s, BlockState.from_namespaced_id_and_property_values
        (BlockRegistry.new states props) nsid pv = some s →
      ∃ r ∈ states, r.id = s.id ∧ r.kind.namespacedId = nsid ∧
        r.untyped_properties = pv) := by
  constructor
  · rw [BlockState.from_namespaced_id_and_property_values, Option.isSome_map']
    rw [BlockRegistry.id_for_untyped_repr, mapGet_isSome_iff]
    simp only [BlockRegistry.new, List.map_map, List.mem_map, Function.comp]
    constructor
    · rintro ⟨r, hr, hkey⟩
      obtain ⟨h1, h2⟩ := Prod.mk.injEq .. ▸ hkey
      exact ⟨r, hr, h1, h2⟩
    · rintro ⟨r, hr, h1, h2⟩
      exact ⟨r, hr, by rw [h1, h2]⟩
  · intro s hsome
    rw [BlockState.from_namespaced_id_and_property_values,
      Option.map_eq_some'] at hsome
    obtain ⟨n, hget, hmk⟩ := hsome
    have hmem := mem_of_mapGet_eq_some hget
    simp only [BlockRegistry.new, List.mem_map] at hmem
    obtain ⟨r, hr, heq⟩ := hmem
    obtain ⟨hkey, hid⟩ := Prod.mk.injEq .. ▸ heq
    obtain ⟨h1, h2⟩ := Prod.mk.injEq .. ▸ hkey
    refine ⟨r, hr, ?_, h1, h2⟩
    rw [hid, ← hmk]

theorem from_namespaced_id_exact_match_witness :
    (BlockState.from_namespaced_id_and_property_values
      (BlockRegistry.new testStates testProps) "minecraft:chest"
      [("type", "single"), ("facing", "north")]).isSome = true ∧
    (BlockState.from_namespaced_id_and_property_values
      (BlockRegistry.new testStates testProps) "minecraft:chest"
      [("facing", "north"), ("type", "single")]).isSome = false := by
  constructor
  · exact (from_namespaced_id_exact_match testStates testProps "minecraft:chest"
      [("type", "single"), ("facing", "north")]).1.2 (by decide)
  · rw [Bool.eq_false_iff]
    intro h
    exact absurd ((from_namespaced_id_exact_match testStates testProps
      "minecraft:chest" [("facing", "north"), ("type", "single")]).1.1 h)
      (by decide)

/-- C1: round-trip — for every valid state `s`, feeding `s.namespaced_id()`
and the `(name, value)` pairs of `s.property_values()` (in produced order)
back into `from_namespaced_id_and_property_values` returns `some s`.  Uses the
spec invariants that row ids equal row indices and that the untyped key of
each row is unique. -/
theorem roundtrip_from_namespaced_id_and_property_values
    (states : List RawBlockState) (props : List RawBlockProperties)
    (hids : BlockRegistry.checkIds states = true)
    (hkeys : (states.map fun r =>
      (r.kind.namespacedId, r.untyped_properties)).Nodup)
    (s : BlockState) (hs : s.id < states.length) :
    ∃ nsid pv,
      BlockState.namespaced_id (BlockRegistry.new states props) s = some nsid ∧
      BlockState.property_values (BlockRegistry.new states props) s = some pv ∧
      BlockState.from_namespaced_id_and_property_values
        (BlockRegistry.new states props) nsid pv = some s := by
  have hr : (BlockRegistry.new states props).raw_state s.id = some states[s.id] :=
    raw_state_new states props s.id hs
  refine ⟨states[s.id].kind.namespacedId, states[s.id].untyped_properties,
    ?_, ?_, ?_⟩
  · simp [BlockState.namespaced_id, BlockState.kind, BlockState.raw, hr]
  · simp [BlockState.property_values, BlockState.raw, hr]
  · rw [BlockState.from_namespaced_id_and_property_values,
      BlockRegistry.id_for_untyped_repr]
    have hnd : (((BlockRegistry.new states props).by_untyped_repr).map
        Prod.fst).Nodup := by
      simpa [BlockRegistry.new, List.map_map, Function.comp] using hkeys
    have hmem : ((states[s.id].kind.namespacedId,
        states[s.id].untyped_properties), states[s.id].id) ∈
        (BlockRegistry.new states props).by_untyped_repr :=
      List.mem_map_of_mem _ (List.getElem_mem hs)
    rw [mapGet_eq_some_of_mem hnd hmem]
    have : states[s.id].id = s.id := (checkIds_iff states).1 hids s.id hs
    rw [this]
    cases s
    rfl

theorem roundtrip_from_namespaced_id_and_property_values_witness :
    ∃ nsid pv,
      BlockState.namespaced_id (BlockRegistry.new testStates testProps)
        ⟨1⟩ = some nsid ∧
      BlockState.property_values (BlockRegistry.new testStates testProps)
        ⟨1⟩ = some pv ∧
      BlockState.from_namespaced_id_and_property_values
        (BlockRegistry.new testStates testProps) nsid pv = some ⟨1⟩ :=
  roundtrip_from_namespaced_id_and_property_values testStates testProps
    (by decide) (by decide) ⟨1⟩ (by decide)

/-- C3: for a valid handle `s` and any block data `d`, if applying `d`'s
overrides to `s`'s raw properties yields a combination matching no row,
`set_data` leaves the id unchanged and surfaces no error; if it matches a row
(unique when the `properties` keys are distinct), the id is replaced by that
row's id. -/
theorem set_data_silent_noop_or_replace (states : List RawBlockState)
    (props : List RawBlockProperties) {D : Type} (impl : BlockDataImpl D)
    (d : D) (s : BlockState) (hs : s.id < states.length) :
    ((∀ r ∈ states, r.properties ≠ impl.apply d states[s.id].properties) →
      BlockState.set_data (BlockRegistry.new states props) impl d s = some s) ∧
    (∀ r ∈ states, (states.map RawBlockState.properties).Nodup →
      r.properties = impl.apply d states[s.id].properties →
      BlockState.set_data (BlockRegistry.new states props) impl d s =
        some ⟨r.id⟩) := by
  have hr := raw_state_new states props s.id hs
  constructor
  · intro hnone
    have hget : mapGet (BlockRegistry.new states props).id_mapping
        (impl.apply d states[s.id].properties) = none := by
      apply mapGet_eq_none_of_not_mem
      intro hmem
      simp only [BlockRegistry.new, List.map_map, List.mem_map,
        Function.comp] at hmem
      obtain ⟨r, hrmem, hreq⟩ := hmem
      exact hnone r hrmem hreq
    simp [BlockState.set_data, BlockState.raw, hr, BlockState.from_raw,
      BlockRegistry.id_for_state, hget]
  · intro r hrmem hnd hreq
    have hmem : (r.properties, r.id) ∈
        (BlockRegistry.new states props).id_mapping :=
      List.mem_map_of_mem _ hrmem
    have hnd' : (((BlockRegistry.new states props).id_mapping).map
        Prod.fst).Nodup := by
      simpa [BlockRegistry.new, List.map_map, Function.comp] using hnd
    have hget : mapGet (BlockRegistry.new states props).id_mapping
        (impl.apply d states[s.id].properties) = some r.id := by
      rw [← hreq]
      exact mapGet_eq_some_of_mem hnd' hmem
    simp [BlockState.set_data, BlockState.raw, hr, BlockState.from_raw,
      BlockRegistry.id_for_state, hget]

theorem set_data_silent_noop_or_replace_witness :
    BlockState.set_data (BlockRegistry.new testStates testProps)
      wholeStateView ⟨kindChest, [("type", "right"), ("facing", "north")]⟩
      ⟨1⟩ = some ⟨1⟩ ∧
    BlockState.set_data (BlockRegistry.new testStates testProps)
      wholeStateView ⟨kindChest, [("type", "left"), ("facing", "north")]⟩
      ⟨1⟩ = some ⟨2⟩ :=
  ⟨(set_data_silent_noop_or_replace testStates testProps wholeStateView
      ⟨kindChest, [("type", "right"), ("facing", "north")]⟩ ⟨1⟩ (by decide)).1
      (by decide),
   (set_data_silent_noop_or_replace testStates testProps wholeStateView
      ⟨kindChest, [("type", "left"), ("facing", "north")]⟩ ⟨1⟩ (by decide)).2
      ⟨2, kindChest, ⟨kindChest, [("type", "left"), ("facing", "north")]⟩,
        [("type", "left"), ("facing", "north")], false⟩
      (by decide) (by decide) (by decide)⟩

/-- C6: if `data_as` decodes a typed view `d` from a state `s`, then
`set_data` with the unchanged `d` leaves `s`'s id unchanged (id-stable
idempotence of the `data_as`/`set_data` round-trip), given the spec invariants
that ids equal indices and that `properties` keys are distinct, and the
Property Codec law carried by `BlockDataImpl`. -/
theorem data_as_set_data_id_stable (states : List RawBlockState)
    (props : List RawBlockProperties)
    (hids : BlockRegistry.checkIds states = true)
    (hprops : (states.map RawBlockState.properties).Nodup)
    {D : Type} (impl : BlockDataImpl D) (s : BlockState) (d : D)
    (h : BlockState.data_as (BlockRegistry.new states props) impl s = some d) :
    BlockState.set_data (BlockRegistry.new states props) impl d s = some s := by
  rw [BlockState.data_as] at h
  obtain ⟨r, hraw, h2⟩ := Option.bind_eq_some.1 h
  obtain ⟨vp, hvp, hfr⟩ := Option.bind_eq_some.1 h2
  have law := impl.apply_from_raw r.properties vp d hfr
  have hraw' : states[s.id]? = some r := hraw
  obtain ⟨hs, hrg⟩ := List.getElem?_eq_some.1 hraw'
  have hid : states[s.id].id = s.id := (checkIds_iff states).1 hids s.id hs
  have hmem : (r.properties, r.id) ∈
      (BlockRegistry.new states props).id_mapping := by
    rw [← hrg]
    exact List.mem_map_of_mem _ (List.getElem_mem hs)
  have hnd' : (((BlockRegistry.new states props).id_mapping).map
      Prod.fst).Nodup := by
    simpa [BlockRegistry.new, List.map_map, Function.comp] using hprops
  have hget : mapGet (BlockRegistry.new states props).id_mapping
      (impl.apply d r.properties) = some s.id := by
    rw [law, mapGet_eq_some_of_mem hnd' hmem, ← hrg, hid]
  have hrs := raw_state_new states props s.id hs
  rw [hrg] at hrs
  simp only [BlockState.set_data, BlockState.raw, hrs, Option.map_some',
    BlockState.from_raw, BlockRegistry.id_for_state, hget]

theorem data_as_set_data_id_stable_witness :
    BlockState.set_data (BlockRegistry.new testStates testProps)
      wholeStateView ⟨kindChest, [("type", "single"), ("facing", "north")]⟩
      ⟨1⟩ = some ⟨1⟩ :=
  data_as_set_data_id_stable testStates testProps (by decide) (by decide)
    wholeStateView ⟨1⟩
    ⟨kindChest, [("type", "single"), ("facing", "north")]⟩ (by decide)

/-- C4: when exactly one row of kind `k` is marked default, `BlockState::new k`
returns that row's state, that state is the unique valid state of kind `k`
satisfying `is_default`, and for a kind with no default row `BlockState::new`
panics (modelled as `none`) instead of returning a value. -/
theorem new_returns_unique_default (states : List RawBlockState)
    (props : List RawBlockProperties) (k : BlockKind)
    (hids : BlockRegistry.checkIds states = true) :
    ((states.filter fun r => decide (r.kind = k) && r.default).length = 1 →
      ∃ s₀, BlockState.new (BlockRegistry.new states props) k = some s₀ ∧
        BlockState.is_default (BlockRegistry.new states props) s₀ =
          some true ∧
        BlockState.kind (BlockRegistry.new states props) s₀ = some k ∧
        ∀ s, BlockState.is_default (BlockRegistry.new states props) s =
            some true →
          BlockState.kind (BlockRegistry.new states props) s = some k →
          s = s₀) ∧
    ((states.filter fun r => decide (r.kind = k) && r.default) = [] →
      BlockState.new (BlockRegistry.new states props) k = none) := by
  constructor
  · intro hone
    obtain ⟨r₀, hfil⟩ := List.length_eq_one.1 hone
    have hr₀ : r₀ ∈ states.filter fun r => decide (r.kind = k) && r.default := by
      rw [hfil]
      exact List.mem_cons_self _ _
    rw [List.mem_filter, Bool.and_eq_true, decide_eq_true_eq] at hr₀
    obtain ⟨hr₀mem, hr₀kind, hr₀def⟩ := hr₀
    obtain ⟨i, hilt, hieq⟩ := List.mem_iff_getElem.1 hr₀mem
    have hr₀id : r₀.id = i := by
      rw [← hieq]
      exact (checkIds_iff states).1 hids i hilt
    have hfilds : ((BlockRegistry.new states props).default_states).filter
        (fun p => decide (p.1 = k)) = [(k, BlockState.mk r₀.id)] := by
      show (((states.filter fun s => s.default).map fun s =>
        (s.kind, BlockState.mk s.id)).filter fun p => decide (p.1 = k)) = _
      rw [List.filter_map, List.filter_filter]
      simp only [Function.comp]
      rw [hfil, List.map_cons, List.map_nil, hr₀kind]
    have hnew : BlockState.new (BlockRegistry.new states props) k =
        some (BlockState.mk r₀.id) :=
      mapGet_eq_some_of_filter_eq hfilds
    have hraw : (BlockRegistry.new states props).raw_state r₀.id = some r₀ := by
      rw [hr₀id, raw_state_new states props i hilt, hieq]
    refine ⟨BlockState.mk r₀.id, hnew, ?_, ?_, ?_⟩
    · simp [BlockState.is_default, BlockState.raw, hraw, hr₀def]
    · simp [BlockState.kind, BlockState.raw, hraw, hr₀kind]
    · intro s hsdef hskind
      rw [BlockState.is_default, BlockState.raw] at hsdef
      rw [BlockState.kind, BlockState.raw] at hskind
      cases hraws : (BlockRegistry.new states props).raw_state s.id with
      | none =>
        rw [hraws] at hsdef
        cases hsdef
      | some rs =>
        rw [hraws] at hsdef hskind
        simp only [Option.map_some', Option.some.injEq] at hsdef hskind
        have hraws' : states[s.id]? = some rs := hraws
        obtain ⟨hslt, hseq⟩ := List.getElem?_eq_some.1 hraws'
        have hrsid : rs.id = s.id := by
          rw [← hseq]
          exact (checkIds_iff states).1 hids s.id hslt
        have hrsfil : rs ∈ states.filter
            fun r => decide (r.kind = k) && r.default := by
          rw [List.mem_filter, Bool.and_eq_true, decide_eq_true_eq]
          exact ⟨hseq ▸ List.getElem_mem hslt, hskind, hsdef⟩
        rw [hfil, List.mem_singleton] at hrsfil
        have hsid : s.id = r₀.id := by rw [← hrsid, hrsfil]
        calc s = BlockState.mk s.id := rfl
          _ = BlockState.mk r₀.id := by rw [hsid]
  · intro hempty
    rw [BlockState.new, BlockRegistry.default_state]
    apply mapGet_eq_none_of_not_mem
    intro hmem
    simp only [BlockRegistry.new, List.map_map, List.mem_map,
      Function.comp] at hmem
    obtain ⟨r, hrmem, hrk⟩ := hmem
    rw [List.mem_filter] at hrmem
    have : r ∈ states.filter fun r => decide (r.kind = k) && r.default := by
      rw [List.mem_filter, Bool.and_eq_true, decide_eq_true_eq]
      exact ⟨hrmem.1, hrk, hrmem.2⟩
    rw [hempty] at this
    cases this

theorem new_returns_unique_default_witness :
    ∃ s₀, BlockState.new (BlockRegistry.new testStates testProps) kindChest =
        some s₀ ∧
      BlockState.is_default (BlockRegistry.new testStates testProps) s₀ =
        some true ∧
      BlockState.kind (BlockRegistry.new testStates testProps) s₀ =
        some kindChest ∧
      ∀ s, BlockState.is_default (BlockRegistry.new testStates testProps) s =
          some true →
        BlockState.kind (BlockRegistry.new testStates testProps) s =
          some kindChest →
        s = s₀ :=
  (new_returns_unique_default testStates testProps kindChest (by decide)).1
    (by decide)

end Feather
